import Mathlib

/-!
# Verification of the `forms` request-data / validation library

A shallow embedding of the `forms` Go package (files `data.go` and the
current-generation validator source) together with proofs about the
frozen specification claims.

Conventions of the embedding:
* Go strings are Lean `String`s; `len` on a Go string is its UTF-8 byte size.
* `url.Values` (a `map[string][]string`) is a function `String → Option (List String)`;
  `none` models an absent map key, `some vs` a present entry.
* Panics are modelled with `Except String`, the error carrying a message.
* Functions from the Go standard library that the package calls
  (`strconv.Atoi`, `strconv.ParseBool`, `strconv.ParseFloat`,
  `strings.TrimSpace`, `filepath.Ext`, `encoding/json`) are modelled
  here by executable Lean functions following their documented behaviour.
-/

namespace Forms

/-! ## Models of Go standard-library string functions -/

/-- `unicode.IsSpace`, restricted to the code points Go treats as white space
(Latin-1 white space plus the Unicode space category as listed in the Go
`unicode` package). -/
def goIsSpace (c : Char) : Bool :=
  c = ' ' ∨ c = '\t' ∨ c = '\n' ∨ c = Char.ofNat 11 ∨ c = Char.ofNat 12 ∨
  c = '\r' ∨ c.toNat = 0x85 ∨ c.toNat = 0xA0 ∨ c.toNat = 0x1680 ∨
  (0x2000 ≤ c.toNat ∧ c.toNat ≤ 0x200A) ∨ c.toNat = 0x2028 ∨
  c.toNat = 0x2029 ∨ c.toNat = 0x202F ∨ c.toNat = 0x205F ∨ c.toNat = 0x3000

/-- `strings.TrimSpace`: drop leading and trailing white-space runes. -/
def goTrimSpace (s : String) : String :=
  String.mk (((s.toList.dropWhile goIsSpace).reverse.dropWhile goIsSpace).reverse)

/-- Go `len` of a string: its size in UTF-8 bytes. -/
def goLen (s : String) : Nat :=
  s.utf8ByteSize

/-- `strings.ToLower` for the ASCII uses in this package. -/
def goStrToLower (s : String) : String :=
  String.mk (s.toList.map Char.toLower)

/-- `strings.Contains(s, sub)` for a one-char `sub`. -/
def goContainsChar (s : String) (c : Char) : Bool :=
  s.toList.contains c

/-- Decimal digits of a char list folded into a natural number
(the caller has checked all chars are digits). -/
def digitsToNat (ds : List Char) : Nat :=
  ds.foldl (fun a c => a * 10 + (c.toNat - '0'.toNat)) 0

/-- `strconv.Atoi`: optional sign, one or more decimal digits, value must
fit in a 64-bit `int`; everything else is an error (`none`). -/
def goAtoi (s : String) : Option Int :=
  let cs := s.toList
  let signed : Bool × List Char :=
    match cs with
    | '+' :: r => (false, r)
    | '-' :: r => (true, r)
    | r => (false, r)
  let neg := signed.1
  let ds := signed.2
  if ds = [] ∨ ¬ ds.all Char.isDigit then none
  else
    let v : Int := if neg then -(digitsToNat ds : Int) else (digitsToNat ds : Int)
    if v < -(2 ^ 63) ∨ v > 2 ^ 63 - 1 then none else some v

/-- `strconv.ParseBool`: accepts exactly the twelve listed literals. -/
def goParseBool (s : String) : Option Bool :=
  if s = "1" ∨ s = "t" ∨ s = "T" ∨ s = "TRUE" ∨ s = "true" ∨ s = "True" then
    some true
  else if s = "0" ∨ s = "f" ∨ s = "F" ∨ s = "FALSE" ∨ s = "false" ∨ s = "False" then
    some false
  else none

/-- The value `strconv.ParseFloat` produces, before rounding to binary64:
a finite value is kept as the exact rational of the literal. (Rounding to
the nearest binary64 is not modelled; no claim depends on it.) -/
inductive GoFloat where
  | num (q : ℚ)
  | inf (neg : Bool)
  | nan
  deriving DecidableEq, Repr

/-- Digit test used by `underscoreOK`: decimal digit, or hex digit when
scanning a hexadecimal literal. -/
def goIsLitDigit (hex : Bool) (c : Char) : Bool :=
  c.isDigit ∨ (hex ∧ ('a' ≤ c.toLower ∧ c.toLower ≤ 'f'))

/-- Scanning state machine of `strconv`'s `underscoreOK`: `saw` is the kind
of the previously scanned char (start of input, digit, underscore, other). -/
def underscoreAux (hex : Bool) : Char → List Char → Bool
  | saw, [] => saw ≠ '_'
  | saw, c :: r =>
    if goIsLitDigit hex c then underscoreAux hex '0' r
    else if c = '_' then saw = '0' && underscoreAux hex '_' r
    else if saw = '_' then false
    else underscoreAux hex '!' r

/-- `strconv`'s `underscoreOK`: underscores in a numeric literal must sit
between digits (the base prefix counting as a digit). -/
def underscoreOK (s : String) : Bool :=
  let cs := s.toList
  let cs1 := match cs with
    | c :: r => if c = '+' ∨ c = '-' then r else cs
    | [] => cs
  match cs1 with
  | '0' :: b :: r =>
    if b.toLower = 'x' ∨ b.toLower = 'b' ∨ b.toLower = 'o' then
      underscoreAux (b.toLower = 'x') '0' r
    else underscoreAux false '^' cs1
  | _ => underscoreAux false '^' cs1

/-- Span of a char predicate, also skipping interior underscores the way
`strconv`'s `readFloat` does: returns (kept digits, rest). -/
def spanDigitsU (p : Char → Bool) : List Char → (List Char × List Char)
  | [] => ([], [])
  | c :: r =>
    if p c then
      let t := spanDigitsU p r
      (c :: t.1, t.2)
    else if c = '_' then spanDigitsU p r
    else ([], c :: r)

/-- Hex digit test. -/
def goIsHexDigit (c : Char) : Bool :=
  c.isDigit ∨ ('a' ≤ c.toLower ∧ c.toLower ≤ 'f')

/-- Hex digits of a char list folded into a natural number. -/
def hexDigitsToNat (ds : List Char) : Nat :=
  ds.foldl (fun a c =>
    a * 16 + (if c.isDigit then c.toNat - '0'.toNat else c.toLower.toNat - 'a'.toNat + 10)) 0

/-- Exponent part `e`/`p` of a float literal: optional sign then at least one
digit (the first exponent char may not be an underscore). Returns the
exponent and the rest of the input. -/
def parseFloatExp : List Char → Option (Int × List Char)
  | cs =>
    let signed : Bool × List Char :=
      match cs with
      | '+' :: r => (false, r)
      | '-' :: r => (true, r)
      | r => (false, r)
    match signed.2 with
    | c :: _ =>
      if c.isDigit then
        let t := spanDigitsU Char.isDigit signed.2
        let e : Int := (digitsToNat t.1 : Int)
        some (if signed.1 then -e else e, t.2)
      else none
    | [] => none

/-- Ten to an integer power, as a rational. -/
def pow10 (e : Int) : ℚ :=
  if 0 ≤ e then ((10 : ℚ) ^ e.toNat) else ((10 : ℚ) ^ (-e).toNat)⁻¹

/-- Two to an integer power, as a rational. -/
def pow2 (e : Int) : ℚ :=
  if 0 ≤ e then ((2 : ℚ) ^ e.toNat) else ((2 : ℚ) ^ (-e).toNat)⁻¹

/-- Mantissa of a float literal: integer digits, optional dot, fraction
digits (underscores skipped); fails when no digit is present. Returns
(mantissa digits, number of fraction digits, rest). -/
def parseFloatMantissa (hex : Bool) (cs : List Char) :
    Option (List Char × Nat × List Char) :=
  let isD : Char → Bool := fun c => if hex then goIsHexDigit c else c.isDigit
  let t1 := spanDigitsU isD cs
  match t1.2 with
  | '.' :: r =>
    let t2 := spanDigitsU isD r
    if t1.1 = [] ∧ t2.1 = [] then none
    else some (t1.1 ++ t2.1, t2.1.length, t2.2)
  | r =>
    if t1.1 = [] then none else some (t1.1, 0, r)

/-- `strconv.ParseFloat` with bitSize 64, modelled up to binary64 rounding:
the special forms (`inf`, `infinity`, `nan`, case-insensitively), then a
decimal or hexadecimal mantissa with its exponent, under the underscore
placement rule. Finite results carry the exact rational value of the
literal. (Not modelled: the range error Go additionally reports when the
value over- or underflows binary64 — in Go that case also makes the
callers below panic, so the modelled failure set is a subset of Go's.) -/
def goParseFloat (s : String) : Option GoFloat :=
  let ls := goStrToLower s
  if ls = "inf" ∨ ls = "+inf" ∨ ls = "infinity" ∨ ls = "+infinity" then
    some (.inf false)
  else if ls = "-inf" ∨ ls = "-infinity" then some (.inf true)
  else if ls = "nan" then some .nan
  else
    let cs := s.toList
    let signed : Bool × List Char :=
      match cs with
      | '+' :: r => (false, r)
      | '-' :: r => (true, r)
      | r => (false, r)
    let neg := signed.1
    let body :=
      match signed.2 with
      | '0' :: x :: r =>
        if x = 'x' ∨ x = 'X' then
          -- hexadecimal mantissa, mandatory binary exponent p
          match parseFloatMantissa true r with
          | none => none
          | some (m, nfrac, rest) =>
            match rest with
            | p :: r2 =>
              if p = 'p' ∨ p = 'P' then
                match parseFloatExp r2 with
                | some (e, []) =>
                  some ((hexDigitsToNat m : ℚ) * pow2 e / ((16 : ℚ) ^ nfrac))
                | _ => none
              else none
            | [] => none
        else
          -- decimal starting with 0
          match parseFloatMantissa false signed.2 with
          | none => none
          | some (m, nfrac, rest) =>
            match rest with
            | [] => some ((digitsToNat m : ℚ) / ((10 : ℚ) ^ nfrac))
            | e :: r2 =>
              if e = 'e' ∨ e = 'E' then
                match parseFloatExp r2 with
                | some (ex, []) =>
                  some ((digitsToNat m : ℚ) / ((10 : ℚ) ^ nfrac) * pow10 ex)
                | _ => none
              else none
      | _ =>
        match parseFloatMantissa false signed.2 with
        | none => none
        | some (m, nfrac, rest) =>
          match rest with
          | [] => some ((digitsToNat m : ℚ) / ((10 : ℚ) ^ nfrac))
          | e :: r2 =>
            if e = 'e' ∨ e = 'E' then
              match parseFloatExp r2 with
              | some (ex, []) =>
                some ((digitsToNat m : ℚ) / ((10 : ℚ) ^ nfrac) * pow10 ex)
              | _ => none
            else none
    match body with
    | none => none
    | some q =>
      if s.toList.contains '_' ∧ ¬ underscoreOK s then none
      else some (.num (if neg then -q else q))

/-! ## JSON values (`encoding/json`)

`json.Unmarshal` into `map[string]interface{}` produces values of the six
dynamic kinds below; `float64` values are carried as exact rationals
(binary64 rounding is not modelled; no claim inspects a non-integral
number). -/

inductive GoVal where
  | str (s : String)
  | boolean (b : Bool)
  | num (q : ℚ)
  | null
  | obj (fields : List (String × GoVal))
  | arr (elems : List GoVal)
  deriving Repr

/-- `fmt.Sprint` of a `float64` (= `strconv.FormatFloat` with `'g'`, -1):
exact for the integral values of magnitude below `10^21`, which are the only
numbers any claim exercises; other values get a definite but unmodelled
rendering. -/
def goFormatNum (q : ℚ) : String :=
  if q.den = 1 ∧ q.num.natAbs < 10 ^ 21 then toString q.num
  else toString q.num ++ "/" ++ toString q.den

/-- JSON string quoting used by `json.Marshal` (with Go's default escaping
of `"`, `\`, control chars, and the HTML-sensitive `<`, `>`, `&`). -/
def jsonQuote (s : String) : String :=
  "\x22" ++ String.join (s.toList.map (fun c =>
    if c = '\x22' then "\\\x22"
    else if c = '\\' then "\\\\"
    else if c = '\n' then "\\n"
    else if c = '\r' then "\\r"
    else if c = '\t' then "\\t"
    else if c = '<' then "\\u003c"
    else if c = '>' then "\\u003e"
    else if c = '&' then "\\u0026"
    else if c.toNat < 0x20 then "\\u00" ++ String.mk [Char.ofNat (c.toNat / 16 + '0'.toNat),
      Char.ofNat (if c.toNat % 16 < 10 then c.toNat % 16 + '0'.toNat else c.toNat % 16 - 10 + 'a'.toNat)]
    else String.mk [c])) ++ "\x22"

mutual

/-- `json.Marshal` of a decoded JSON value. (Go sorts the keys of a
`map[string]interface{}`; the model keeps the given field order — no claim
inspects marshalled output.) -/
def goJsonMarshal : GoVal → String
  | .str s => jsonQuote s
  | .boolean b => if b then "true" else "false"
  | .num q => goFormatNum q
  | .null => "null"
  | .obj fields => "\x7b" ++ goJsonMarshalFields fields ++ "\x7d"
  | .arr elems => "[" ++ goJsonMarshalElems elems ++ "]"

/-- Comma-separated rendering of object members. -/
def goJsonMarshalFields : List (String × GoVal) → String
  | [] => ""
  | [(k, v)] => jsonQuote k ++ ":" ++ goJsonMarshal v
  | (k, v) :: rest => jsonQuote k ++ ":" ++ goJsonMarshal v ++ "," ++ goJsonMarshalFields rest

/-- Comma-separated rendering of array elements. -/
def goJsonMarshalElems : List GoVal → String
  | [] => ""
  | [v] => goJsonMarshal v
  | v :: rest => goJsonMarshal v ++ "," ++ goJsonMarshalElems rest

end

/-! ### A JSON parser modelling `json.Unmarshal` into `interface{}` -/

/-- JSON insignificant white space. -/
def jsonWs (c : Char) : Bool :=
  c = ' ' ∨ c = '\t' ∨ c = '\n' ∨ c = '\r'

/-- Strict JSON number grammar: `-? (0 | [1-9][0-9]*) frac? exp?`,
returning the exact rational and the rest of the input. -/
def jsonParseNum (cs : List Char) : Option (ℚ × List Char) :=
  let signed : Bool × List Char :=
    match cs with
    | '-' :: r => (true, r)
    | r => (false, r)
  let intPart : Option (List Char × List Char) :=
    match signed.2 with
    | '0' :: r => some (['0'], r)
    | c :: r =>
      if c.isDigit then
        let t := r.span Char.isDigit
        some (c :: t.1, t.2)
      else none
    | [] => none
  match intPart with
  | none => none
  | some (ip, rest1) =>
    let fracPart : Option (List Char × List Char) :=
      match rest1 with
      | '.' :: r =>
        let t := r.span Char.isDigit
        if t.1 = [] then none else some (t.1, t.2)
      | r => some ([], r)
    match fracPart with
    | none => none
    | some (fp, rest2) =>
      let expPart : Option (Int × List Char) :=
        match rest2 with
        | e :: r =>
          if e = 'e' ∨ e = 'E' then
            match r with
            | c :: r2 =>
              let signedE : Bool × List Char :=
                if c = '+' then (false, r2) else if c = '-' then (true, r2) else (false, c :: r2)
              match signedE.2 with
              | d :: _ =>
                if d.isDigit then
                  let t := signedE.2.span Char.isDigit
                  let ev : Int := (digitsToNat t.1 : Int)
                  some (if signedE.1 then -ev else ev, t.2)
                else none
              | [] => none
            | [] => none
          else some (0, e :: r)
        | [] => some (0, [])
      match expPart with
      | none => none
      | some (ex, rest3) =>
        let q : ℚ := (digitsToNat (ip ++ fp) : ℚ) / ((10 : ℚ) ^ fp.length) * pow10 ex
        some (if signed.1 then -q else q, rest3)

/-- One character of a JSON string literal body, handling escapes.
Surrogate-pair recombination is not modelled. -/
def jsonParseStrChars (fuel : Nat) (cs : List Char) : Option (List Char × List Char) :=
  match fuel, cs with
  | 0, _ => none
  | _, [] => none
  | fuel + 1, c :: r =>
    if c = '\x22' then some ([], r)
    else if c = '\\' then
      match r with
      | e :: r2 =>
        let dec : Option (List Char × List Char) :=
          if e = '\x22' then some (['\x22'], r2)
          else if e = '\\' then some (['\\'], r2)
          else if e = '/' then some (['/'], r2)
          else if e = 'b' then some ([Char.ofNat 8], r2)
          else if e = 'f' then some ([Char.ofNat 12], r2)
          else if e = 'n' then some (['\n'], r2)
          else if e = 'r' then some (['\r'], r2)
          else if e = 't' then some (['\t'], r2)
          else if e = 'u' then
            match r2 with
            | a :: b :: c2 :: d :: r3 =>
              if goIsHexDigit a ∧ goIsHexDigit b ∧ goIsHexDigit c2 ∧ goIsHexDigit d then
                some ([Char.ofNat (hexDigitsToNat [a, b, c2, d] % 0xD800)], r3)
              else none
            | _ => none
          else none
        match dec with
        | none => none
        | some (out, r3) =>
          match jsonParseStrChars fuel r3 with
          | none => none
          | some (tail, rest) => some (out ++ tail, rest)
      | [] => none
    else
      match jsonParseStrChars fuel r with
      | none => none
      | some (tail, rest) => some (c :: tail, rest)

mutual

/-- Fueled recursive-descent parser for one JSON value (the fuel dominates
the input length, so running out of fuel never happens on the inputs used). -/
def jsonParseVal (fuel : Nat) (cs : List Char) : Option (GoVal × List Char) :=
  match fuel with
  | 0 => none
  | fuel + 1 =>
    match cs.dropWhile jsonWs with
    | [] => none
    | c :: r =>
      if c = '\x7b' then
        match (r.dropWhile jsonWs) with
        | '\x7d' :: r2 => some (.obj [], r2)
        | _ => jsonParseMembers fuel (r.dropWhile jsonWs) >>= fun t =>
            some (.obj t.1, t.2)
      else if c = '[' then
        match (r.dropWhile jsonWs) with
        | ']' :: r2 => some (.arr [], r2)
        | _ => jsonParseElems fuel (r.dropWhile jsonWs) >>= fun t =>
            some (.arr t.1, t.2)
      else if c = '\x22' then
        jsonParseStrChars fuel r >>= fun t => some (.str (String.mk t.1), t.2)
      else if c = 't' then
        match r with
        | 'r' :: 'u' :: 'e' :: r2 => some (.boolean true, r2)
        | _ => none
      else if c = 'f' then
        match r with
        | 'a' :: 'l' :: 's' :: 'e' :: r2 => some (.boolean false, r2)
        | _ => none
      else if c = 'n' then
        match r with
        | 'u' :: 'l' :: 'l' :: r2 => some (.null, r2)
        | _ => none
      else
        jsonParseNum (c :: r) >>= fun t => some (.num t.1, t.2)

/-- Members of a JSON object after the opening brace (at least one). -/
def jsonParseMembers (fuel : Nat) (cs : List Char) :
    Option (List (String × GoVal) × List Char) :=
  match fuel with
  | 0 => none
  | fuel + 1 =>
    match cs.dropWhile jsonWs with
    | '\x22' :: r =>
      jsonParseStrChars fuel r >>= fun tk =>
      match (tk.2.dropWhile jsonWs) with
      | ':' :: r2 =>
        jsonParseVal fuel r2 >>= fun tv =>
        match (tv.2.dropWhile jsonWs) with
        | ',' :: r3 =>
          jsonParseMembers fuel r3 >>= fun tr =>
          some ((String.mk tk.1, tv.1) :: tr.1, tr.2)
        | '\x7d' :: r3 => some ([(String.mk tk.1, tv.1)], r3)
        | _ => none
      | _ => none
    | _ => none

/-- Elements of a JSON array after the opening bracket (at least one). -/
def jsonParseElems (fuel : Nat) (cs : List Char) :
    Option (List GoVal × List Char) :=
  match fuel with
  | 0 => none
  | fuel + 1 =>
    jsonParseVal fuel cs >>= fun tv =>
    match (tv.2.dropWhile jsonWs) with
    | ',' :: r2 =>
      jsonParseElems fuel r2 >>= fun tr => some (tv.1 :: tr.1, tr.2)
    | ']' :: r2 => some ([tv.1], r2)
    | _ => none

end

/-- `json.Unmarshal` of a byte string into `interface{}`: empty (or
white-space-only) input is the "unexpected end of JSON input" error, any
other failure an "invalid character" error. (Decode-time constraints of a
concrete target shape, and last-wins duplicate object keys, are not
modelled — no claim exercises them.) -/
def goJsonUnmarshal (s : String) : Except String GoVal :=
  let cs := s.toList
  if cs.dropWhile jsonWs = [] then .error "unexpected end of JSON input"
  else
    match jsonParseVal (cs.length + 1) cs with
    | some (v, rest) =>
      if rest.dropWhile jsonWs = [] then .ok v
      else .error "invalid character after top-level value"
    | none => .error "invalid character"

/-! ## The `Data` store (`data.go`) -/

/-- A `*multipart.FileHeader`: only the filename matters to the embedded
operations. -/
structure FileHeader where
  filename : String
  deriving Repr

/-- `Data` from `data.go`: `Values url.Values` is the map from key to its
value slice (`none` = key absent from the map), `Files` the one-file-per-key
map, `jsonBody` the retained raw JSON body. -/
structure Data where
  values : String → Option (List String)
  files : String → Option FileHeader
  jsonBody : String

/-- `newData`: both maps empty, no body. -/
def newData : Data :=
  ⟨fun _ => none, fun _ => none, ""⟩

/-- The value slice for a key (`nil` for an absent key reads as `[]`,
as in Go). -/
def Data.valuesList (d : Data) (key : String) : List String :=
  (d.values key).getD []

/-- `Data.Add` / `url.Values.Add`: append to the (possibly nil) slice. -/
def Data.Add (d : Data) (key value : String) : Data :=
  { d with values := fun k => if k = key then some (d.valuesList key ++ [value]) else d.values k }

/-- `Data.AddFile`: `d.Files[key] = file` (later adds overwrite). -/
def Data.AddFile (d : Data) (key : String) (file : FileHeader) : Data :=
  { d with files := fun k => if k = key then some file else d.files k }

/-- `Data.Set` / `url.Values.Set`: replace the slice by a singleton. -/
def Data.Set (d : Data) (key value : String) : Data :=
  { d with values := fun k => if k = key then some [value] else d.values k }

/-- `Data.Del` / `url.Values.Del`: remove the key. -/
def Data.Del (d : Data) (key : String) : Data :=
  { d with values := fun k => if k = key then none else d.values k }

/-- `Data.Get` / `url.Values.Get`: first element of the slice, or the empty
string when the key is absent or its slice is empty. -/
def Data.Get (d : Data) (key : String) : String :=
  (d.valuesList key).headD ""

/-- `Data.GetFile`: the file for a key, `nil` (`none`) when absent. -/
def Data.GetFile (d : Data) (key : String) : Option FileHeader :=
  d.files key

/-- `Data.KeyExists`: map-membership of the key in `Values`. -/
def Data.KeyExists (d : Data) (key : String) : Bool :=
  (d.values key).isSome

/-- `Data.FileExists`: map-membership of the key in `Files`. -/
def Data.FileExists (d : Data) (key : String) : Bool :=
  (d.files key).isSome

/-- `Data.GetInt`: zero when the key is absent or its slice empty; otherwise
`strconv.Atoi` of the first value, panicking (`.error`) when it fails. -/
def Data.GetInt (d : Data) (key : String) : Except String Int :=
  if ¬ d.KeyExists key ∨ (d.valuesList key).length = 0 then .ok 0
  else
    match goAtoi (d.Get key) with
    | none => .error ("strconv.Atoi: parsing " ++ jsonQuote (d.Get key) ++ ": invalid syntax")
    | some n => .ok n

/-- `Data.GetFloat`: zero when the key is absent or its slice empty;
otherwise `strconv.ParseFloat` of the first value, panicking on failure. -/
def Data.GetFloat (d : Data) (key : String) : Except String GoFloat :=
  if ¬ d.KeyExists key ∨ (d.valuesList key).length = 0 then .ok (.num 0)
  else
    match goParseFloat (d.Get key) with
    | none => .error ("strconv.ParseFloat: parsing " ++ jsonQuote (d.Get key) ++ ": invalid syntax")
    | some f => .ok f

/-- `Data.GetBool`: `false` when the key is absent or its slice empty;
otherwise `strconv.ParseBool` of the first value, panicking on failure. -/
def Data.GetBool (d : Data) (key : String) : Except String Bool :=
  if ¬ d.KeyExists key ∨ (d.valuesList key).length = 0 then .ok false
  else
    match goParseBool (d.Get key) with
    | none => .error ("strconv.ParseBool: parsing " ++ jsonQuote (d.Get key) ++ ": invalid syntax")
    | some b => .ok b

/-- `Data.GetMapFromJSON`: `(nil, nil)` when the key is absent or its slice
empty; otherwise unmarshal the first value, which must be a JSON object. -/
def Data.GetMapFromJSON (d : Data) (key : String) :
    Except String (Option (List (String × GoVal))) :=
  if ¬ d.KeyExists key ∨ (d.valuesList key).length = 0 then .ok none
  else
    match goJsonUnmarshal (d.Get key) with
    | .error e => .error e
    | .ok (.obj fields) => .ok (some fields)
    | .ok _ => .error "json: cannot unmarshal value into map"

/-- `Data.GetSliceFromJSON`: `(nil, nil)` when the key is absent or its slice
empty; otherwise unmarshal the first value, which must be a JSON array. -/
def Data.GetSliceFromJSON (d : Data) (key : String) :
    Except String (Option (List GoVal)) :=
  if ¬ d.KeyExists key ∨ (d.valuesList key).length = 0 then .ok none
  else
    match goJsonUnmarshal (d.Get key) with
    | .error e => .error e
    | .ok (.arr elems) => .ok (some elems)
    | .ok _ => .error "json: cannot unmarshal value into slice"

/-- `Data.GetAndUnmarshalJSON`: unconditionally unmarshals `Get key`
(note: unlike the two getters above, there is **no** absent-key guard in the
source). The caller's target shape is modelled generically: the decoded
value is returned. -/
def Data.GetAndUnmarshalJSON (d : Data) (key : String) : Except String GoVal :=
  goJsonUnmarshal (d.Get key)

/-- `Data.GetStringsSplit`: `nil` when absent/empty, else `strings.Split` of
the first value. -/
def Data.GetStringsSplit (d : Data) (key delim : String) : Option (List String) :=
  if ¬ d.KeyExists key ∨ (d.valuesList key).length = 0 then none
  else some ((d.valuesList key).headD "" |>.splitOn delim)

/-! ## `Parse` (`data.go`) -/

/-- Adding a list of key/value pairs one by one with `Data.Add`; the loops
of `Parse` over a decoded multi-map are its pairs enumerated in iteration
order (per-key order is the slice order; the interleaving across keys is
arbitrary, which the pair list leaves free). -/
def addAll (d : Data) (pairs : List (String × String)) : Data :=
  pairs.foldl (fun d p => d.Add p.1 p.2) d

/-- The values a pair list carries for one key, in order. -/
def pairsFor (key : String) (pairs : List (String × String)) : List String :=
  pairs.filterMap (fun p => if p.1 = key then some p.2 else none)

/-- The `form-urlencoded` branch of `Parse` followed by its unconditional
final step: append every decoded body pair, then append every url-query
pair. -/
def parseFormURLEncoded (postForm query : List (String × String)) : Data :=
  addAll (addAll newData postForm) query

/-- The per-pair type switch of `parseJSON` (`data.go`), as the string that
gets added for a decoded JSON value: `fmt.Sprint` for strings, booleans and
numbers, the empty string for `null`, and a re-marshalled JSON string for
objects and arrays. -/
def flattenString : GoVal → String
  | .str s => s
  | .boolean b => if b then "true" else "false"
  | .num q => goFormatNum q
  | .null => ""
  | .obj fields => goJsonMarshal (.obj fields)
  | .arr elems => goJsonMarshal (.arr elems)

/-- The loop of `parseJSON` over the decoded top-level object: add the
flattened string for every key. -/
def flattenJSON (d : Data) (rawData : List (String × GoVal)) : Data :=
  rawData.foldl (fun d p => d.Add p.1 (flattenString p.2)) d

/-- The `application/json` branch of `Parse` followed by its unconditional
final step, starting from the decoded top-level object (the JSON codec's
unmarshal of the body is delegated, as in the source): flatten the object
into the store, then append every url-query pair. -/
def parseJSONRequest (rawData : List (String × GoVal))
    (query : List (String × String)) : Data :=
  addAll (flattenJSON newData rawData) query

/-- The JSON values a decoded object carries for one key, in order (a
`map[string]interface{}` carries each key at most once). -/
def valsFor (key : String) (rawData : List (String × GoVal)) : List GoVal :=
  rawData.filterMap (fun p => if p.1 = key then some p.2 else none)

/-! ## The `Validator` (current-generation validator source)

Go's `*ValidationResult` values are heap references: every failing check
allocates a fresh result and appends the same pointer to `v.results`, while
every passing check returns the one package-level `validationOk` pointer.
The embedding makes the heap explicit: a `VRRef` names either the shared ok
cell or the `i`-th cell of the results list, and the fluent
`Field`/`Message` setters mutate the named cell inside the state. -/

structure ValidationResult where
  ok : Bool
  field : String
  message : String
  deriving Repr, DecidableEq

instance : Inhabited ValidationResult := ⟨⟨false, "", ""⟩⟩

/-- A reference to a `*ValidationResult`: the shared `validationOk`
singleton, or the result stored at an index of the validator's list. -/
inductive VRRef where
  | ok
  | err (i : Nat)
  deriving Repr, DecidableEq

/-- The mutable state reachable from a `*Validator`: its bound data, its
`results` slice, and the `validationOk` cell every successful check
returns. (In Go that cell is package-global, so it is shared even across
validators; one cell per state is enough for the claims, which concern a
single validator.) -/
structure VState where
  data : Data
  okResult : ValidationResult
  results : List ValidationResult

/-- `Data.Validator`: a fresh validator over the store;
`validationOk = &ValidationResult{Ok: true}` starts with zero-valued
field and message. -/
def Data.Validator (d : Data) : VState :=
  ⟨d, ⟨true, "", ""⟩, []⟩

/-- Dereference a result handle. -/
def VState.read (s : VState) (r : VRRef) : ValidationResult :=
  match r with
  | .ok => s.okResult
  | .err i => s.results.getD i default

/-- `(*ValidationResult).Field`: mutate the referenced cell's field name. -/
def VState.setField (s : VState) (r : VRRef) (f : String) : VState :=
  match r with
  | .ok => { s with okResult := { s.okResult with field := f } }
  | .err i => { s with results := s.results.set i { s.results.getD i default with field := f } }

/-- `(*ValidationResult).Message`: mutate the referenced cell's message. -/
def VState.setMessage (s : VState) (r : VRRef) (m : String) : VState :=
  match r with
  | .ok => { s with okResult := { s.okResult with message := m } }
  | .err i => { s with results := s.results.set i { s.results.getD i default with message := m } }

/-- `Validator.AddError`: append a fresh failing result and return its
handle. -/
def VState.AddError (s : VState) (field msg : String) : VState × VRRef :=
  ({ s with results := s.results ++ [⟨false, field, msg⟩] }, .err s.results.length)

/-- `Validator.HasErrors`. -/
def VState.HasErrors (s : VState) : Bool :=
  s.results.length > 0

/-- `Validator.Messages`. -/
def VState.Messages (s : VState) : List String :=
  s.results.map (·.message)

/-- `Validator.Fields`. -/
def VState.Fields (s : VState) : List String :=
  s.results.map (·.field)

/-- `addRequiredError`. -/
def VState.addRequiredError (s : VState) (field : String) : VState × VRRef :=
  s.AddError field (field ++ " is required.")

/-- `Validator.Require`: error when the trimmed first value is empty. -/
def VState.Require (s : VState) (field : String) : VState × VRRef :=
  if goTrimSpace (s.data.Get field) = "" then s.addRequiredError field
  else (s, .ok)

/-- `addMinLengthError`. -/
def VState.addMinLengthError (s : VState) (field : String) (length : Int) : VState × VRRef :=
  s.AddError field (field ++ " must be at least " ++ toString length ++ " characters long.")

/-- `Validator.MinLength`: error when the trimmed first value has fewer than
`length` bytes. -/
def VState.MinLength (s : VState) (field : String) (length : Int) : VState × VRRef :=
  let val := s.data.Get field
  let trimmed := goTrimSpace val
  if (goLen trimmed : Int) < length then s.addMinLengthError field length
  else (s, .ok)

/-- `addMaxLengthError`. -/
def VState.addMaxLengthError (s : VState) (field : String) (length : Int) : VState × VRRef :=
  s.AddError field (field ++ " cannot be more than " ++ toString length ++ " characters long.")

/-- `Validator.MaxLength`: error when the trimmed first value has more than
`length` bytes. -/
def VState.MaxLength (s : VState) (field : String) (length : Int) : VState × VRRef :=
  let val := s.data.Get field
  let trimmed := goTrimSpace val
  if (goLen trimmed : Int) > length then s.addMaxLengthError field length
  else (s, .ok)

/-- `addLengthRangeError`. -/
def VState.addLengthRangeError (s : VState) (field : String) (min max : Int) : VState × VRRef :=
  s.AddError field (field ++ " must be between " ++ toString min ++ " and " ++
    toString max ++ " characters long.")

/-- `Validator.LengthRange`: error when the **untrimmed** first value's byte
length lies outside `[min, max]` (the source, unlike `MinLength` and
`MaxLength`, does not trim). -/
def VState.LengthRange (s : VState) (field : String) (min max : Int) : VState × VRRef :=
  let val := s.data.Get field
  if (goLen val : Int) < min ∨ (goLen val : Int) > max then
    s.addLengthRangeError field min max
  else (s, .ok)

/-- `addEqualError` (attached to the second field). -/
def VState.addEqualError (s : VState) (field1 field2 : String) : VState × VRRef :=
  s.AddError field2 (field1 ++ " and " ++ field2 ++ " must match.")

/-- `Validator.Equal`. -/
def VState.Equal (s : VState) (field1 field2 : String) : VState × VRRef :=
  if s.data.Get field1 ≠ s.data.Get field2 then s.addEqualError field1 field2
  else (s, .ok)

/-- `addTypeError`: the article is "an" when the first byte of the type noun
is a vowel; note that the generated message has **no** trailing period in
the source (`"%s must be %s %s"`). -/
def VState.addTypeError (s : VState) (field typ : String) : VState × VRRef :=
  let article := if goContainsChar "aeiou" typ.front then "an" else "a"
  s.AddError field (field ++ " must be " ++ article ++ " " ++ typ)

/-- `Validator.TypeInt`. -/
def VState.TypeInt (s : VState) (field : String) : VState × VRRef :=
  match goAtoi (s.data.Get field) with
  | none => s.addTypeError field "integer"
  | some _ => (s, .ok)

/-- `Validator.TypeFloat`. -/
def VState.TypeFloat (s : VState) (field : String) : VState × VRRef :=
  match goParseFloat (s.data.Get field) with
  | none => s.addTypeError field "number"
  | some _ => (s, .ok)

/-- `Validator.TypeBool`. -/
def VState.TypeBool (s : VState) (field : String) : VState × VRRef :=
  match goParseBool (s.data.Get field) with
  | none => s.addTypeError field "true or false"
  | some _ => (s, .ok)

/-! ### `AcceptFileExts` -/

/-- `filepath.Ext`: the suffix of the path starting at the final dot of its
final slash-separated element, empty when that element has no dot. -/
def extAux : List Char → List Char → String
  | [], _ => ""
  | c :: rest, acc =>
    if c = '/' then ""
    else if c = '.' then String.mk (c :: acc)
    else extAux rest (c :: acc)

/-- See `extAux`. -/
def filepathExt (path : String) : String :=
  extAux path.toList.reverse []

/-- One pass of the message loop of `addFileExtError`, `n` being the length
of the whole list and `i` the index of the current element: the last element
(index `n - 1`) is rendered bare when it is the only one and with `"and "`
in front otherwise; middle elements get a `" "` separator when the whole
list has two elements and `", "` otherwise. -/
def extPiece (n i : Nat) (ext : String) : String :=
  if i = n - 1 then
    match n with
    | 1 => ext
    | _ => "and " ++ ext
  else
    match n with
    | 2 => ext ++ " "
    | _ => ext ++ ", "

/-- The whole message loop of `addFileExtError`, appending the pieces in
order. -/
def extPieces (n : Nat) : Nat → List String → String
  | _, [] => ""
  | i, [ext] => extPiece n i ext
  | i, ext :: rest => extPiece n i ext ++ extPieces n (i + 1) rest

/-- The human-readable allowed-extension list built by the loop of
`addFileExtError`. -/
def extListMsg (exts : List String) : String :=
  extPieces exts.length 0 exts

/-- `addFileExtError`. -/
def VState.addFileExtError (s : VState) (field gotExt : String)
    (allowedExts : List String) : VState × VRRef :=
  s.AddError field ("The file extension " ++ gotExt ++
    " is not allowed. Allowed extensions include: " ++ extListMsg allowedExts)

/-- `Validator.AcceptFileExts`: ok when no file is present; otherwise the
extension of the filename is compared (without its leading dot) against the
allowed list. The comparison slices `gotExt[1:]`, which panics
(`.error`) when the filename has no extension and the loop body runs at
least once. -/
def VState.AcceptFileExts (s : VState) (field : String) (exts : List String) :
    Except String (VState × VRRef) :=
  match s.data.files field with
  | none => .ok (s, .ok)
  | some header =>
    let gotExt := filepathExt header.filename
    match exts with
    | [] => .ok (s.addFileExtError field gotExt exts)
    | _ :: _ =>
      if goLen gotExt < 1 then
        .error "runtime error: slice bounds out of range"
      else if exts.contains (gotExt.drop 1) then .ok (s, .ok)
      else .ok (s.addFileExtError field gotExt exts)

/-! ## Supporting lemmas -/

theorem goLen_eq_zero_iff (s : String) : goLen s = 0 ↔ s = "" := by
  cases s with
  | mk data =>
    cases data with
    | nil => simp [goLen, String.utf8ByteSize, String.utf8ByteSize.go]
    | cons c cs =>
      have h1 : String.mk (c :: cs) = "" ↔ False := by simp [String.ext_iff]
      rw [h1, iff_false]
      show ¬ (String.utf8ByteSize ⟨c :: cs⟩ = 0)
      have h2 : String.utf8ByteSize ⟨c :: cs⟩ =
          String.utf8ByteSize.go cs + c.utf8Size := rfl
      have := Char.utf8Size_pos c
      omega

theorem valuesList_Add (d : Data) (k v K : String) :
    (d.Add k v).valuesList K =
      if K = k then d.valuesList K ++ [v] else d.valuesList K := by
  by_cases h : K = k
  · subst h
    simp [Data.Add, Data.valuesList]
  · simp [Data.Add, Data.valuesList, h]

theorem keyExists_Add (d : Data) (k v K : String) :
    (d.Add k v).KeyExists K = (K = k ∨ d.KeyExists K = true : Bool) := by
  by_cases h : K = k
  · subst h
    simp [Data.Add, Data.KeyExists]
  · simp [Data.Add, Data.KeyExists, h]

theorem addAll_valuesList (pairs : List (String × String)) (d : Data) (K : String) :
    (addAll d pairs).valuesList K = d.valuesList K ++ pairsFor K pairs := by
  induction pairs generalizing d with
  | nil => simp [addAll, pairsFor]
  | cons p ps ih =>
    rcases p with ⟨k, v⟩
    show (addAll (d.Add k v) ps).valuesList K = _
    rw [ih]
    rw [valuesList_Add]
    by_cases h : K = k
    · subst h
      simp [pairsFor]
    · have h2 : ¬ (k = K) := fun hh => h hh.symm
      simp [pairsFor, h, h2]

theorem addAll_keyExists (pairs : List (String × String)) (d : Data) (K : String) :
    (addAll d pairs).KeyExists K = true ↔
      d.KeyExists K = true ∨ pairsFor K pairs ≠ [] := by
  induction pairs generalizing d with
  | nil => simp [addAll, pairsFor]
  | cons p ps ih =>
    rcases p with ⟨k, v⟩
    show (addAll (d.Add k v) ps).KeyExists K = true ↔ _
    rw [ih]
    rw [keyExists_Add]
    by_cases h : K = k
    · subst h
      simp [pairsFor]
    · have h2 : ¬ (k = K) := fun hh => h hh.symm
      simp [pairsFor, h, h2]

theorem flattenJSON_eq_addAll (d : Data) (rawData : List (String × GoVal)) :
    flattenJSON d rawData =
      addAll d (rawData.map (fun p => (p.1, flattenString p.2))) := by
  simp [flattenJSON, addAll, List.foldl_map]

theorem pairsFor_map_flatten (K : String) (rawData : List (String × GoVal)) :
    pairsFor K (rawData.map (fun p => (p.1, flattenString p.2))) =
      (valsFor K rawData).map flattenString := by
  induction rawData with
  | nil => simp [pairsFor, valsFor]
  | cons p ps ih =>
    rcases p with ⟨k, v⟩
    by_cases h : k = K
    · subst h
      simp [pairsFor, valsFor] at ih ⊢
      exact ih
    · simp [pairsFor, valsFor, h] at ih ⊢
      exact ih

theorem extPieces_cons (n i : Nat) (ext : String) (r : List String) (hr : r ≠ []) :
    extPieces n i (ext :: r) = extPiece n i ext ++ extPieces n (i + 1) r := by
  cases r with
  | nil => exact absurd rfl hr
  | cons a l => rfl

theorem extPiece_last (m i : Nat) (y : String) (hi : i = m + 3 - 1) :
    extPiece (m + 3) i y = "and " ++ y := by
  unfold extPiece
  rw [if_pos hi]
  rfl

theorem extPiece_middle (m i : Nat) (x : String) (hi : ¬ i = m + 3 - 1) :
    extPiece (m + 3) i x = x ++ ", " := by
  unfold extPiece
  rw [if_neg hi]
  rfl

theorem extPieces_append_last (n : Nat) (hn : 3 ≤ n) (xs : List String) :
    ∀ (i : Nat) (y : String), i + xs.length + 1 = n →
      extPieces n i (xs ++ [y]) =
        xs.foldr (fun x acc => x ++ ", " ++ acc) ("and " ++ y) := by
  obtain ⟨m, rfl⟩ : ∃ m, n = m + 3 := ⟨n - 3, by omega⟩
  induction xs with
  | nil =>
    intro i y h
    simp only [List.length_nil] at h
    have hi : i = m + 3 - 1 := by omega
    show extPiece (m + 3) i y = "and " ++ y
    exact extPiece_last m i y hi
  | cons x xs' ih =>
    intro i y h
    simp only [List.length_cons] at h
    have hi : ¬ (i = m + 3 - 1) := by omega
    rw [show (x :: xs') ++ [y] = x :: (xs' ++ [y]) from rfl]
    rw [extPieces_cons _ _ _ _ (by simp)]
    rw [extPiece_middle m i x hi]
    rw [ih (i + 1) y (by omega)]
    rfl

theorem acceptFileExts_some (s : VState) (field : String) (header : FileHeader)
    (h : s.data.files field = some header) (e : String) (es : List String) :
    s.AcceptFileExts field (e :: es) =
      (if goLen (filepathExt header.filename) < 1 then
        .error "runtime error: slice bounds out of range"
      else if (e :: es).contains ((filepathExt header.filename).drop 1) then
        .ok (s, .ok)
      else .ok (s.addFileExtError field (filepathExt header.filename) (e :: es))) := by
  unfold VState.AcceptFileExts
  rw [h]

/-! ## Claims -/

/-- C1: for every request whose body and url query both carry a key `K`,
after `Parse` the body's values for `K` precede the query's values in the
store's sequence for `K`; `Get K` returns the body's first value, and the
query's first value remains reachable as a later element of that
sequence. -/
theorem claim1_body_precedes_query (postForm query : List (String × String))
    (K bv qv : String) (bvs qvs : List String)
    (hb : pairsFor K postForm = bv :: bvs)
    (hq : pairsFor K query = qv :: qvs) :
    (parseFormURLEncoded postForm query).Get K = bv ∧
    (parseFormURLEncoded postForm query).valuesList K = (bv :: bvs) ++ (qv :: qvs) ∧
    ((parseFormURLEncoded postForm query).valuesList K)[(bv :: bvs).length]? = some qv := by
  have hv : (parseFormURLEncoded postForm query).valuesList K =
      (bv :: bvs) ++ (qv :: qvs) := by
    show (addAll (addAll newData postForm) query).valuesList K = _
    rw [addAll_valuesList, addAll_valuesList, hb, hq]
    rfl
  refine ⟨?_, hv, ?_⟩
  · show ((parseFormURLEncoded postForm query).valuesList K).headD "" = bv
    rw [hv]
    rfl
  · rw [hv, List.getElem?_append_right (by simp)]
    simp

/-- Witness for C1 at a concrete request: body `k=body`, query `k=query`. -/
theorem claim1_witness :
    (parseFormURLEncoded [("k", "body")] [("k", "query")]).Get "k" = "body" ∧
    (parseFormURLEncoded [("k", "body")] [("k", "query")]).valuesList "k" =
      ["body", "query"] ∧
    ((parseFormURLEncoded [("k", "body")] [("k", "query")]).valuesList "k")[1]? =
      some "query" :=
  claim1_body_precedes_query [("k", "body")] [("k", "query")] "k" "body" "query"
    [] [] (by decide) (by decide)

/-- C2: `GetInt`, `GetFloat` and `GetBool` return the zero value when the
key is absent or its value slice empty, and panic whenever the key is
present with a non-empty slice whose first value fails to parse — they
never return the zero value for a present-but-unparseable value. -/
theorem claim2_zero_or_panic (d : Data) (key : String) :
    ((¬ d.KeyExists key = true ∨ (d.valuesList key).length = 0) →
      d.GetInt key = .ok 0 ∧ d.GetFloat key = .ok (.num 0) ∧
        d.GetBool key = .ok false) ∧
    (d.KeyExists key = true → (d.valuesList key).length ≠ 0 →
      (goAtoi (d.Get key) = none → ∃ e, d.GetInt key = .error e) ∧
      (goParseFloat (d.Get key) = none → ∃ e, d.GetFloat key = .error e) ∧
      (goParseBool (d.Get key) = none → ∃ e, d.GetBool key = .error e)) := by
  constructor
  · intro h
    refine ⟨?_, ?_, ?_⟩
    · unfold Data.GetInt
      rw [if_pos h]
    · unfold Data.GetFloat
      rw [if_pos h]
    · unfold Data.GetBool
      rw [if_pos h]
  · intro hk hl
    have hc : ¬ (¬ d.KeyExists key = true ∨ (d.valuesList key).length = 0) := by
      simp [hk, hl]
    refine ⟨?_, ?_, ?_⟩ <;> intro hp
    · unfold Data.GetInt
      rw [if_neg hc, hp]
      exact ⟨_, rfl⟩
    · unfold Data.GetFloat
      rw [if_neg hc, hp]
      exact ⟨_, rfl⟩
    · unfold Data.GetBool
      rw [if_neg hc, hp]
      exact ⟨_, rfl⟩

/-- Witness for C2: the absent key yields the zero values, and the key
present with the unparseable value `"x"` makes all three getters panic. -/
theorem claim2_witness :
    (newData.GetInt "k" = .ok 0 ∧ newData.GetFloat "k" = .ok (.num 0) ∧
      newData.GetBool "k" = .ok false) ∧
    (∃ e, (newData.Add "k" "x").GetInt "k" = .error e) ∧
    (∃ e, (newData.Add "k" "x").GetFloat "k" = .error e) ∧
    (∃ e, (newData.Add "k" "x").GetBool "k" = .error e) := by
  have h1 := (claim2_zero_or_panic newData "k").1 (by left; decide)
  have h2 := (claim2_zero_or_panic (newData.Add "k" "x") "k").2 (by decide) (by decide)
  exact ⟨h1, h2.1 (by decide), h2.2.1 (by decide), h2.2.2 (by decide)⟩

/-- C9: when a key is present with a non-empty value slice whose first
value is the empty string, all three typed getters panic rather than
returning the zero value — the silent zero path needs the key absent or
the slice empty. -/
theorem claim9_present_empty_string_panics (d : Data) (key : String)
    (hk : d.KeyExists key = true) (hl : (d.valuesList key).length ≠ 0)
    (hv : d.Get key = "") :
    (∃ e, d.GetInt key = .error e) ∧ (∃ e, d.GetFloat key = .error e) ∧
      (∃ e, d.GetBool key = .error e) := by
  have hi : goAtoi (d.Get key) = none := by rw [hv]; decide
  have hf : goParseFloat (d.Get key) = none := by rw [hv]; rfl
  have hb : goParseBool (d.Get key) = none := by rw [hv]; decide
  have hc : ¬ (¬ d.KeyExists key = true ∨ (d.valuesList key).length = 0) := by
    simp [hk, hl]
  refine ⟨?_, ?_, ?_⟩
  · unfold Data.GetInt
    rw [if_neg hc, hi]
    exact ⟨_, rfl⟩
  · unfold Data.GetFloat
    rw [if_neg hc, hf]
    exact ⟨_, rfl⟩
  · unfold Data.GetBool
    rw [if_neg hc, hb]
    exact ⟨_, rfl⟩

/-- Witness for C9 at the store holding `k = ""`. -/
theorem claim9_witness :
    (∃ e, (newData.Add "k" "").GetInt "k" = .error e) ∧
    (∃ e, (newData.Add "k" "").GetFloat "k" = .error e) ∧
    (∃ e, (newData.Add "k" "").GetBool "k" = .error e) :=
  claim9_present_empty_string_panics (newData.Add "k" "") "k"
    (by decide) (by decide) (by decide)

/-- C3, counterexample: on the absent key `"k"` of an empty store,
`GetMapFromJSON` and `GetSliceFromJSON` return success with a nil result,
but `GetAndUnmarshalJSON` — which the claim says behaves the same — has no
absent-key guard, unmarshals the empty string, and returns the decode
error. -/
theorem claim3_counterexample :
    newData.GetMapFromJSON "k" = .ok none ∧
    newData.GetSliceFromJSON "k" = .ok none ∧
    newData.GetAndUnmarshalJSON "k" = .error "unexpected end of JSON input" :=
  ⟨rfl, rfl, rfl⟩

/-- C3, amended: for every key absent from the store (or with an empty
value slice), `GetMapFromJSON` and `GetSliceFromJSON` return success with a
nil result, while `GetAndUnmarshalJSON` unmarshals the empty string and
returns the "unexpected end of JSON input" decode error. -/
theorem claim3_amended (d : Data) (key : String)
    (h : ¬ d.KeyExists key = true ∨ (d.valuesList key).length = 0) :
    d.GetMapFromJSON key = .ok none ∧ d.GetSliceFromJSON key = .ok none ∧
    d.GetAndUnmarshalJSON key = .error "unexpected end of JSON input" := by
  have hget : d.Get key = "" := by
    rcases h with h | h
    · unfold Data.Get Data.valuesList
      unfold Data.KeyExists at h
      rcases hvk : d.values key with _ | l
      · rfl
      · rw [hvk] at h
        simp at h
    · unfold Data.Get
      rcases hl : d.valuesList key with _ | ⟨a, l⟩
      · rfl
      · rw [hl] at h
        simp at h
  refine ⟨?_, ?_, ?_⟩
  · unfold Data.GetMapFromJSON
    rw [if_pos h]
  · unfold Data.GetSliceFromJSON
    rw [if_pos h]
  · unfold Data.GetAndUnmarshalJSON
    rw [hget]
    rfl

/-- Witness for C3's amended claim at the empty store. -/
theorem claim3_witness :
    newData.GetMapFromJSON "missing" = .ok none ∧
    newData.GetSliceFromJSON "missing" = .ok none ∧
    newData.GetAndUnmarshalJSON "missing" = .error "unexpected end of JSON input" :=
  claim3_amended newData "missing" (Or.inl (by decide))

/-- C4: `MinLength` and `MaxLength` decide on the trimmed byte length of
the field's first value, `LengthRange` on the untrimmed byte length being
outside `[min, max]`; concretely, the value `" abc "` (trimmed length 3,
untrimmed length 5) passes `MinLength(f, 3)` yet fails
`LengthRange(f, 3, 4)`. -/
theorem claim4_trim_asymmetry (s : VState) (field : String) (n mn mx : Int) :
    ((s.MinLength field n).1.results =
      if (goLen (goTrimSpace (s.data.Get field)) : Int) < n then
        s.results ++ [⟨false, field,
          field ++ " must be at least " ++ toString n ++ " characters long."⟩]
      else s.results) ∧
    ((s.MaxLength field n).1.results =
      if (goLen (goTrimSpace (s.data.Get field)) : Int) > n then
        s.results ++ [⟨false, field,
          field ++ " cannot be more than " ++ toString n ++ " characters long."⟩]
      else s.results) ∧
    ((s.LengthRange field mn mx).1.results =
      if (goLen (s.data.Get field) : Int) < mn ∨ (goLen (s.data.Get field) : Int) > mx then
        s.results ++ [⟨false, field,
          field ++ " must be between " ++ toString mn ++ " and " ++
            toString mx ++ " characters long."⟩]
      else s.results) ∧
    (((newData.Add "f" " abc ").Validator.MinLength "f" 3).1.results = [] ∧
      ((newData.Add "f" " abc ").Validator.LengthRange "f" 3 4).1.results ≠ []) := by
  refine ⟨?_, ?_, ?_, by decide⟩
  · by_cases hc : (goLen (goTrimSpace (s.data.Get field)) : Int) < n
    · simp only [VState.MinLength, VState.addMinLengthError, VState.AddError]
      rw [if_pos hc, if_pos hc]
    · simp only [VState.MinLength, VState.addMinLengthError, VState.AddError]
      rw [if_neg hc, if_neg hc]
  · by_cases hc : (goLen (goTrimSpace (s.data.Get field)) : Int) > n
    · simp only [VState.MaxLength, VState.addMaxLengthError, VState.AddError]
      rw [if_pos hc, if_pos hc]
    · simp only [VState.MaxLength, VState.addMaxLengthError, VState.AddError]
      rw [if_neg hc, if_neg hc]
  · by_cases hc : (goLen (s.data.Get field) : Int) < mn ∨ (goLen (s.data.Get field) : Int) > mx
    · simp only [VState.LengthRange, VState.addLengthRangeError, VState.AddError]
      rw [if_pos hc, if_pos hc]
    · simp only [VState.LengthRange, VState.addLengthRangeError, VState.AddError]
      rw [if_neg hc, if_neg hc]

/-- C5, counterexample: on the value `"abc"` for field `"age"`, `TypeInt`
appends the default message `"age must be an integer"` — without the
trailing period the claim requires. -/
theorem claim5_counterexample :
    ((newData.Add "age" "abc").Validator.TypeInt "age").1.Messages =
      ["age must be an integer"] ∧
    ((newData.Add "age" "abc").Validator.TypeInt "age").1.Messages ≠
      ["age must be an integer."] := by
  decide

/-- C5, amended: on an unparseable first value, `TypeInt`/`TypeFloat`/
`TypeBool` append a result whose default message is
"`field` must be a/an `<type noun>`" — with **no** trailing period, the
article chosen by whether the type noun's first letter is a vowel, and the
type nouns "integer", "number" and "true or false". -/
theorem claim5_amended (s : VState) (field : String) :
    (goAtoi (s.data.Get field) = none →
      (s.TypeInt field).1.results =
        s.results ++ [⟨false, field, field ++ " must be an integer"⟩]) ∧
    (goParseFloat (s.data.Get field) = none →
      (s.TypeFloat field).1.results =
        s.results ++ [⟨false, field, field ++ " must be a number"⟩]) ∧
    (goParseBool (s.data.Get field) = none →
      (s.TypeBool field).1.results =
        s.results ++ [⟨false, field, field ++ " must be a true or false"⟩]) := by
  refine ⟨?_, ?_, ?_⟩ <;> intro hp
  · unfold VState.TypeInt
    rw [hp]
    show s.results ++ [⟨false, field, field ++ " must be " ++ "an" ++ " " ++ "integer"⟩] =
      s.results ++ [⟨false, field, field ++ " must be an integer"⟩]
    rw [String.append_assoc, String.append_assoc, String.append_assoc]
    rfl
  · unfold VState.TypeFloat
    rw [hp]
    show s.results ++ [⟨false, field, field ++ " must be " ++ "a" ++ " " ++ "number"⟩] =
      s.results ++ [⟨false, field, field ++ " must be a number"⟩]
    rw [String.append_assoc, String.append_assoc, String.append_assoc]
    rfl
  · unfold VState.TypeBool
    rw [hp]
    show s.results ++ [⟨false, field, field ++ " must be " ++ "a" ++ " " ++ "true or false"⟩] =
      s.results ++ [⟨false, field, field ++ " must be a true or false"⟩]
    rw [String.append_assoc, String.append_assoc, String.append_assoc]
    rfl

/-- Witness for C5's amended claim on the value `"abc"`. -/
theorem claim5_witness :
    ((newData.Add "age" "abc").Validator.TypeInt "age").1.results =
      [⟨false, "age", "age must be an integer"⟩] ∧
    ((newData.Add "age" "abc").Validator.TypeFloat "age").1.results =
      [⟨false, "age", "age must be a number"⟩] ∧
    ((newData.Add "age" "abc").Validator.TypeBool "age").1.results =
      [⟨false, "age", "age must be a true or false"⟩] := by
  have h := claim5_amended (newData.Add "age" "abc").Validator "age"
  exact ⟨h.1 (by decide), h.2.1 (by rfl), h.2.2 (by decide)⟩

/-- C6, counterexample: the source keeps a single shared mutable
`validationOk` object; both successful `Require` calls below return it, so
overriding the field through the first call's result is observed through
the second call's result (its field reads `"zzz"`, not the default
`""`) — contradicting the claimed absence of cross-talk. (The other half
of the claim, that ok results are never appended, does hold: see the
results list staying empty.) -/
theorem claim6_counterexample :
    (let s0 := ((newData.Add "a" "x").Add "b" "y").Validator
     let p1 := s0.Require "a"
     let s1 := p1.1.setField p1.2 "zzz"
     let p2 := s1.Require "b"
     p2.1.read p2.2 = ⟨true, "zzz", ""⟩ ∧ (⟨true, "zzz", ""⟩ : ValidationResult) ≠
       ⟨true, "", ""⟩ ∧ p2.1.results = []) := by
  decide

/-- C6, amended: every successful check returns the shared ok sentinel and
appends nothing to the result list; but since all successful checks return
the same single mutable object, overriding its field through one check's
result **is** observable through the result returned by any other
successful check (while the accumulated error list stays unaffected). -/
theorem claim6_amended (s : VState) (f1 f2 name : String) (exts : List String)
    (h1 : ¬ goTrimSpace (s.data.Get f1) = "")
    (h2 : ¬ goTrimSpace (s.data.Get f2) = "") :
    (s.Require f1 = (s, .ok)) ∧
    ((((s.Require f1).1.setField (s.Require f1).2 name).Require f2).2 = .ok ∧
      ((((s.Require f1).1.setField (s.Require f1).2 name).Require f2).1.read
          ((((s.Require f1).1.setField (s.Require f1).2 name).Require f2).2)) =
        { s.okResult with field := name } ∧
      ((((s.Require f1).1.setField (s.Require f1).2 name).Require f2).1.results =
        s.results)) ∧
    (∀ n : Int, ¬ (goLen (goTrimSpace (s.data.Get f1)) : Int) < n →
      s.MinLength f1 n = (s, .ok)) ∧
    (∀ n : Int, ¬ (goLen (goTrimSpace (s.data.Get f1)) : Int) > n →
      s.MaxLength f1 n = (s, .ok)) ∧
    (∀ mn mx : Int,
      ¬ ((goLen (s.data.Get f1) : Int) < mn ∨ (goLen (s.data.Get f1) : Int) > mx) →
      s.LengthRange f1 mn mx = (s, .ok)) ∧
    (s.data.Get f1 = s.data.Get f2 → s.Equal f1 f2 = (s, .ok)) ∧
    (∀ v, goAtoi (s.data.Get f1) = some v → s.TypeInt f1 = (s, .ok)) ∧
    (∀ g, goParseFloat (s.data.Get f1) = some g → s.TypeFloat f1 = (s, .ok)) ∧
    (∀ b, goParseBool (s.data.Get f1) = some b → s.TypeBool f1 = (s, .ok)) ∧
    (s.data.files f1 = none → s.AcceptFileExts f1 exts = .ok (s, .ok)) := by
  have e1 : s.Require f1 = (s, .ok) := by
    unfold VState.Require
    rw [if_neg h1]
  refine ⟨e1, ?_, ?_, ?_, ?_, ?_, ?_, ?_, ?_, ?_⟩
  · rw [e1]
    have e2 : (s.setField VRRef.ok name).Require f2 =
        (s.setField VRRef.ok name, .ok) := by
      unfold VState.Require
      rw [show (s.setField VRRef.ok name).data = s.data from rfl]
      rw [if_neg h2]
    rw [e2]
    exact ⟨rfl, rfl, rfl⟩
  · intro n hn
    unfold VState.MinLength
    rw [if_neg hn]
  · intro n hn
    unfold VState.MaxLength
    rw [if_neg hn]
  · intro mn mx hn
    unfold VState.LengthRange
    rw [if_neg hn]
  · intro hEq
    unfold VState.Equal
    rw [if_neg (fun hne => hne hEq)]
  · intro v hv
    unfold VState.TypeInt
    rw [hv]
  · intro g hg
    unfold VState.TypeFloat
    rw [hg]
  · intro b hb
    unfold VState.TypeBool
    rw [hb]
  · intro hf
    unfold VState.AcceptFileExts
    rw [hf]

/-- Witness for C6's amended claim: two successful `Require` calls over a
concrete store; the override through the first is read back through the
second, and no result is accumulated. -/
theorem claim6_witness :
    (let x := ((newData.Add "a" "x").Add "b" "y").Validator
     let p1 := x.Require "a"
     let p2 := (p1.1.setField p1.2 "zzz").Require "b"
     p1 = (x, .ok) ∧ p2.1.results = [] ∧ p2.1.read p2.2 = ⟨true, "zzz", ""⟩) := by
  have h := claim6_amended ((newData.Add "a" "x").Add "b" "y").Validator
    "a" "b" "zzz" [] (by decide) (by decide)
  exact ⟨h.1, h.2.1.2.2, h.2.1.2.1⟩

/-- C7: `AcceptFileExts` appends nothing when no file exists for the field;
when a file with a non-empty, not-allowed extension is present it appends
exactly one error whose message is the fixed prefix naming the dotted
extension followed by the allowed list, rendered bare for one element,
"a and b" for two, and "a, b, and c" (comma-separated with a final
", and ") for three or more. -/
theorem claim7_accept_file_exts (s : VState) (field : String)
    (exts : List String) (header : FileHeader) :
    (s.data.files field = none → s.AcceptFileExts field exts = .ok (s, .ok)) ∧
    (s.data.files field = some header →
      filepathExt header.filename ≠ "" →
      exts.contains ((filepathExt header.filename).drop 1) = false →
      s.AcceptFileExts field exts =
        .ok ({ s with results := s.results ++ [⟨false, field,
          "The file extension " ++ filepathExt header.filename ++
            " is not allowed. Allowed extensions include: " ++ extListMsg exts⟩] },
          .err s.results.length)) ∧
    (∀ a : String, extListMsg [a] = a) ∧
    (∀ a b : String, extListMsg [a, b] = a ++ " " ++ ("and " ++ b)) ∧
    (∀ (xs : List String) (y : String), 2 ≤ xs.length →
      extListMsg (xs ++ [y]) =
        xs.foldr (fun x acc => x ++ ", " ++ acc) ("and " ++ y)) := by
  refine ⟨?_, ?_, fun a => rfl, fun a b => rfl, ?_⟩
  · intro hf
    unfold VState.AcceptFileExts
    rw [hf]
  · intro hf hext hnc
    cases exts with
    | nil =>
      unfold VState.AcceptFileExts
      rw [hf]
      rfl
    | cons e es =>
      rw [acceptFileExts_some s field header hf e es]
      have hlen : ¬ goLen (filepathExt header.filename) < 1 := by
        have := (goLen_eq_zero_iff (filepathExt header.filename)).not.mpr hext
        omega
      rw [if_neg hlen]
      rw [if_neg (by rw [hnc]; exact Bool.false_ne_true)]
      rfl
  · intro xs y hxs
    unfold extListMsg
    exact extPieces_append_last (xs ++ [y]).length (by simp; omega) xs 0 y (by simp)

/-- Witness for C7, mirroring the spec's example: `test_file.txt` against
allowed extensions `jpg, png`. -/
theorem claim7_witness :
    ((newData.AddFile "file" ⟨"test_file.txt"⟩).Validator.AcceptFileExts
        "file" ["jpg", "png"]) =
      .ok ({ (newData.AddFile "file" ⟨"test_file.txt"⟩).Validator with
        results := [⟨false, "file",
          "The file extension .txt is not allowed. Allowed extensions include: jpg and png"⟩] },
        .err 0) ∧
    extListMsg ["jpg", "png"] = "jpg and png" := by
  have h := (claim7_accept_file_exts
    (newData.AddFile "file" ⟨"test_file.txt"⟩).Validator "file" ["jpg", "png"]
    ⟨"test_file.txt"⟩).2.1 (by rfl) (by decide) (by decide)
  refine ⟨?_, by decide⟩
  rw [h]
  rfl

/-- C8: a JSON-object body key holding `null` is flattened to the empty
string, so after the JSON branch of `Parse` (including the final query
merge) `Get` on that key returns `""` and `KeyExists` is `true`. -/
theorem claim8_null_becomes_empty (rawData : List (String × GoVal))
    (query : List (String × String)) (K : String)
    (h : valsFor K rawData = [GoVal.null]) :
    (parseJSONRequest rawData query).Get K = "" ∧
    (parseJSONRequest rawData query).KeyExists K = true := by
  have hv : (parseJSONRequest rawData query).valuesList K =
      "" :: pairsFor K query := by
    unfold parseJSONRequest
    rw [flattenJSON_eq_addAll]
    rw [addAll_valuesList, addAll_valuesList]
    rw [pairsFor_map_flatten, h]
    rfl
  constructor
  · show ((parseJSONRequest rawData query).valuesList K).headD "" = ""
    rw [hv]
    rfl
  · unfold parseJSONRequest
    rw [flattenJSON_eq_addAll]
    rw [addAll_keyExists]
    left
    rw [addAll_keyExists]
    right
    rw [pairsFor_map_flatten, h]
    simp [flattenString]

/-- Witness for C8, mirroring the spec's example body `{"aptitude":null}`
(here with a query parameter appended after it). -/
theorem claim8_witness :
    (parseJSONRequest [("aptitude", GoVal.null)] [("aptitude", "q")]).Get
        "aptitude" = "" ∧
    (parseJSONRequest [("aptitude", GoVal.null)] [("aptitude", "q")]).KeyExists
        "aptitude" = true :=
  claim8_null_becomes_empty [("aptitude", GoVal.null)] [("aptitude", "q")]
    "aptitude" rfl

/-- C10, counterexample: with an **empty** allowed list, the loop body of
`AcceptFileExts` never runs, so `gotExt[1:]` is never evaluated: on a store
holding an extension-less file the call does not abort — it appends an
extension-not-allowed error (naming the empty extension) and returns
normally, contradicting the unconditional claim that every such store makes
`AcceptFileExts` abort instead of appending an error. -/
theorem claim10_counterexample :
    ((newData.AddFile "f" ⟨"noext"⟩).Validator.AcceptFileExts "f" []) =
      .ok ({ (newData.AddFile "f" ⟨"noext"⟩).Validator with
        results := [⟨false, "f",
          "The file extension  is not allowed. Allowed extensions include: "⟩] },
        .err 0) :=
  rfl

/-- C10, amended: when a file is present whose filename has no extension
(`filepath.Ext` returns the empty string) and **at least one** allowed
extension is given, `AcceptFileExts` aborts with the out-of-range slice
panic from `gotExt[1:]` instead of appending an extension-not-allowed
error or returning ok; with an empty allowed list the loop body never
runs, and an extension-not-allowed error is appended instead. -/
theorem claim10_no_extension_panics (s : VState) (field : String)
    (header : FileHeader) (exts : List String)
    (hf : s.data.files field = some header)
    (hext : filepathExt header.filename = "")
    (hne : exts ≠ []) :
    s.AcceptFileExts field exts =
      .error "runtime error: slice bounds out of range" := by
  cases exts with
  | nil => exact absurd rfl hne
  | cons e es =>
    rw [acceptFileExts_some s field header hf e es]
    have hlen : goLen (filepathExt header.filename) < 1 := by
      rw [hext]
      decide
    rw [if_pos hlen]

/-- Witness for C10 at the filename `noext`. -/
theorem claim10_witness :
    ((newData.AddFile "f" ⟨"noext"⟩).Validator.AcceptFileExts "f" ["jpg"]) =
      .error "runtime error: slice bounds out of range" :=
  claim10_no_extension_panics (newData.AddFile "f" ⟨"noext"⟩).Validator "f"
    ⟨"noext"⟩ ["jpg"] (by rfl) (by decide) (by decide)

end Forms
